import Mathlib

/-!
# Verification of the syntax-tree traversal framework (`src/syntax/visit.rs`)

The repository's single source file defines, for a markup + scripting AST,
a `Visit` trait with one overridable operation per node kind, default
"walker" bodies that recurse into children in a fixed order, and three
semantic hooks: `visit_binding` (an identifier is being *defined*),
`visit_enter` / `visit_exit` (a lexical scope opens / closes).

We embed the walk of a *recording visitor*: the visitor that overrides
`visit_node`, `visit_expr`, `visit_binding`, `visit_enter` and `visit_exit`
to log an event and (for the two structural operations) then invoke the
default walker.  Every other operation keeps its default body.  Each
walker below is the corresponding free function of the source, returning
the list of events logged while it runs; `op_node` / `op_expr` are the
recording visitor's overridden operations (the `v.visit_node` /
`v.visit_expr` calls of the source), and `v.visit_binding`,
`v.visit_enter`, `v.visit_exit` log the one corresponding event.

The AST type definitions themselves live outside the provided source
(they come from `super::*`); they are modelled from the specification's
data-model section, whose shapes exactly match the accesses the walkers
in `visit.rs` perform.
-/

namespace Visit

/-- Modelled from the spec: identifiers (`Ident`) are the names bound or
referenced by the program; the traversal only passes them around. -/
abbrev Ident := String

mutual

/-- Modelled from the spec: `Node` — markup markers without payload,
text/raw payloads, a heading with a nested sub-tree, and the expression
escape hatch.  (`Tree` is an ordered sequence of `Node`.) -/
inductive Node where
| Strong : Node
| Emph : Node
| Space : Node
| Linebreak : Node
| Parbreak : Node
| Text : String → Node
| Heading : (contents : List Node) → Node
| Raw : String → Node
| Expr : Expr → Node

/-- Modelled from the spec: a `Dict` item and a named argument,
`Named{ident, expr}`. -/
inductive Named where
| mk : (ident : Ident) → (expr : Expr) → Named

/-- Modelled from the spec: a call argument, positional or named. -/
inductive ExprArg where
| Pos : Expr → ExprArg
| Named : Named → ExprArg

/-- Modelled from the spec: the for-loop pattern, one binding or a
key/value pair of bindings. -/
inductive ForPattern where
| Value : Ident → ForPattern
| KeyValue : (key : Ident) → (value : Ident) → ForPattern

/-- Modelled from the spec: the expression language.  `Lit` and `Ident`
are terminals; `Template` carries an embedded tree; `Block` carries its
`scoping` flag; `Closure`, `Let` and `For` carry binding occurrences. -/
inductive Expr where
| Lit : Expr
| Ident : Ident → Expr
| Array : (items : List Expr) → Expr
| Dict : (items : List Named) → Expr
| Template : (tree : List Node) → Expr
| Group : (expr : Expr) → Expr
| Block : (scoping : Bool) → (exprs : List Expr) → Expr
| Unary : (expr : Expr) → Expr
| Binary : (lhs : Expr) → (rhs : Expr) → Expr
| Call : (callee : Expr) → (args : List ExprArg) → Expr
| Closure : (params : List Ident) → (body : Expr) → Expr
| Let : (binding : Ident) → (init : Option Expr) → Expr
| If : (condition : Expr) → (if_body : Expr) → (else_body : Option Expr) → Expr
| While : (condition : Expr) → (body : Expr) → Expr
| For : (pattern : ForPattern) → (iter : Expr) → (body : Expr) → Expr

end

/-- A `Tree` is an ordered sequence of `Node` (spec §3). -/
abbrev Tree := List Node

/-- One logged event of the recording visitor: the three semantic hooks,
plus one event per `visit_node` / `visit_expr` operation invocation. -/
inductive Event where
| enter : Event
| exit : Event
| binding : Ident → Event
| node : Node → Event
| expr : Expr → Event

mutual

/-- `visit_tree` (visit.rs:45): visit every node of the tree in order. -/
def visit_tree : Tree → List Event
| [] => []
| node :: rest => op_node node ++ visit_tree rest
termination_by t => 3 * sizeOf t
decreasing_by all_goals (simp_wf; try omega)

/-- The recording visitor's `visit_node` operation: log the node, then run
the default walker. -/
def op_node (node : Node) : List Event :=
Event.node node :: visit_node node
termination_by 3 * sizeOf node + 1
decreasing_by all_goals (simp_wf; try omega)

/-- `visit_node` (visit.rs:51): markup markers and text are leaves; a
heading recurses into its contents; an `Expr` node dispatches to
`visit_expr`. -/
def visit_node : Node → List Event
| .Strong => []
| .Emph => []
| .Space => []
| .Linebreak => []
| .Parbreak => []
| .Text _ => []
| .Heading contents => visit_tree contents
| .Raw _ => []
| .Expr e => op_expr e
termination_by n => 3 * sizeOf n
decreasing_by all_goals (simp_wf; try omega)

/-- The recording visitor's `visit_expr` operation: log the expression,
then run the default walker. -/
def op_expr (e : Expr) : List Event :=
Event.expr e :: visit_expr e
termination_by 3 * sizeOf e + 1
decreasing_by all_goals (simp_wf; try omega)

/-- `visit_expr` (visit.rs:65): dispatch on the expression variant. -/
def visit_expr : Expr → List Event
| .Lit => []
| .Ident _ => []
| .Array items => visit_array items
| .Dict items => visit_dict items
| .Template tree => visit_template tree
| .Group e => visit_group e
| .Block scoping exprs => visit_block scoping exprs
| .Unary e => visit_unary e
| .Binary lhs rhs => visit_binary lhs rhs
| .Call callee args => visit_call callee args
| .Closure params body => visit_closure params body
| .Let binding init => visit_let binding init
| .If condition if_body else_body => visit_if condition if_body else_body
| .While condition body => visit_while condition body
| .For pattern iter body => visit_for pattern iter body
termination_by e => 3 * sizeOf e
decreasing_by all_goals (simp_wf; try omega)

/-- `visit_array` (visit.rs:85), taking the `items` of the `ExprArray`:
visit each item in order. -/
def visit_array : List Expr → List Event
| [] => []
| e :: rest => op_expr e ++ visit_array rest
termination_by l => 3 * sizeOf l + 2
decreasing_by all_goals (simp_wf; try omega)

/-- `visit_dict` (visit.rs:91), taking the `items` of the `ExprDict`:
visit each item's value expression in order; the key identifier is not
passed to any operation. -/
def visit_dict : List Named → List Event
| [] => []
| .mk _ e :: rest => op_expr e ++ visit_dict rest
termination_by l => 3 * sizeOf l + 2
decreasing_by all_goals (simp_wf; try omega)

/-- `visit_template` (visit.rs:97), taking the `tree` of the
`ExprTemplate`: enter a scope, walk the embedded tree, exit the scope. -/
def visit_template (tree : Tree) : List Event :=
Event.enter :: (visit_tree tree ++ [Event.exit])
termination_by 3 * sizeOf tree + 2
decreasing_by all_goals (simp_wf; try omega)

/-- `visit_group` (visit.rs:103), taking the `expr` of the `ExprGroup`:
visit the single inner expression. -/
def visit_group (e : Expr) : List Event :=
op_expr e
termination_by 3 * sizeOf e + 2
decreasing_by all_goals (simp_wf; try omega)

/-- `visit_block` (visit.rs:107), taking the fields of the `ExprBlock`:
enter a scope only when `scoping` is set, visit the expressions in order,
exit only when `scoping` is set. -/
def visit_block (scoping : Bool) (exprs : List Expr) : List Event :=
(if scoping then [Event.enter] else []) ++
(visit_block_exprs exprs ++ (if scoping then [Event.exit] else []))
termination_by 3 * sizeOf exprs + 2
decreasing_by all_goals (simp_wf; try omega)

/-- The loop of `visit_block` (visit.rs:111): visit each expression of
the block in order. -/
def visit_block_exprs : List Expr → List Event
| [] => []
| e :: rest => op_expr e ++ visit_block_exprs rest
termination_by l => 3 * sizeOf l
decreasing_by all_goals (simp_wf; try omega)

/-- `visit_binary` (visit.rs:119), taking the fields of the `ExprBinary`:
left operand, then right operand. -/
def visit_binary (lhs rhs : Expr) : List Event :=
op_expr lhs ++ op_expr rhs
termination_by 3 * (sizeOf lhs + sizeOf rhs) + 2
decreasing_by all_goals (simp_wf; try omega)

/-- `visit_unary` (visit.rs:124), taking the `expr` of the `ExprUnary`:
the single operand. -/
def visit_unary (e : Expr) : List Event :=
op_expr e
termination_by 3 * sizeOf e + 2
decreasing_by all_goals (simp_wf; try omega)

/-- `visit_call` (visit.rs:128), taking the fields of the `ExprCall`:
the callee, then the arguments. -/
def visit_call (callee : Expr) (args : List ExprArg) : List Event :=
op_expr callee ++ visit_args args
termination_by 3 * (sizeOf callee + sizeOf args) + 2
decreasing_by all_goals (simp_wf; try omega)

/-- `visit_closure` (visit.rs:133), taking the fields of the
`ExprClosure`: fire the binding hook on every parameter in order, then
visit the body. -/
def visit_closure (params : List Ident) (body : Expr) : List Event :=
params.map Event.binding ++ op_expr body
termination_by 3 * sizeOf body + 2
decreasing_by all_goals (simp_wf; try omega)

/-- `visit_args` (visit.rs:140), taking the `items` of the `ExprArgs`:
visit each argument in order. -/
def visit_args : List ExprArg → List Event
| [] => []
| arg :: rest => visit_arg arg ++ visit_args rest
termination_by l => 3 * sizeOf l + 1
decreasing_by all_goals (simp_wf; try omega)

/-- `visit_arg` (visit.rs:146): a positional argument's expression, or a
named argument's value expression; the name is not passed to any
operation. -/
def visit_arg : ExprArg → List Event
| .Pos e => op_expr e
| .Named (.mk _ e) => op_expr e
termination_by a => 3 * sizeOf a + 2
decreasing_by all_goals (simp_wf; try omega)

/-- `visit_let` (visit.rs:153), taking the fields of the `ExprLet`: fire
the binding hook on the bound identifier, then visit the initializer when
present. -/
def visit_let (binding : Ident) (init : Option Expr) : List Event :=
Event.binding binding ::
(match init with
 | some i => op_expr i
 | none => [])
termination_by 3 * sizeOf init + 2
decreasing_by all_goals (simp_wf; try omega)

/-- `visit_if` (visit.rs:160), taking the fields of the `ExprIf`:
condition, then if-body, then else-body when present. -/
def visit_if (condition if_body : Expr) (else_body : Option Expr) : List Event :=
op_expr condition ++ op_expr if_body ++
(match else_body with
 | some body => op_expr body
 | none => [])
termination_by 3 * (sizeOf condition + sizeOf if_body + sizeOf else_body) + 2
decreasing_by all_goals (simp_wf; try omega)

/-- `visit_while` (visit.rs:168), taking the fields of the `ExprWhile`:
condition, then body. -/
def visit_while (condition body : Expr) : List Event :=
op_expr condition ++ op_expr body
termination_by 3 * (sizeOf condition + sizeOf body) + 2
decreasing_by all_goals (simp_wf; try omega)

/-- `visit_for` (visit.rs:173), taking the fields of the `ExprFor`: the
pattern's bindings (key before value for a key/value pattern), then the
iterable, then the body. -/
def visit_for (pattern : ForPattern) (iter body : Expr) : List Event :=
(match pattern with
 | .Value value => [Event.binding value]
 | .KeyValue key value => [Event.binding key, Event.binding value]) ++
(op_expr iter ++ op_expr body)
termination_by 3 * (sizeOf iter + sizeOf body) + 2
decreasing_by all_goals (simp_wf; try omega)

end

/-! ## Independent structural counts

The specification's testable properties compare the walk against counts
"per T via independent manual count".  The following families are those
independent counts, defined by structural recursion on the tree alone:
the number of scope-introducing constructs (`Template`s and `Block`s
whose `scoping` flag is set), the number of tree entities (`Node`s and
`Expr`s), and the list of binding occurrences (closure parameters, `let`
targets, for-pattern identifiers) in declaration order. -/

mutual

/-- Independent count of scope-introducing constructs in a tree. -/
def scopes_tree : Tree → Nat
| [] => 0
| n :: rest => scopes_node n + scopes_tree rest
termination_by t => sizeOf t
decreasing_by all_goals (simp_wf; try omega)

/-- Independent count of scope-introducing constructs in a node. -/
def scopes_node : Node → Nat
| .Heading contents => scopes_tree contents
| .Expr e => scopes_expr e
| _ => 0
termination_by n => sizeOf n
decreasing_by all_goals (simp_wf; try omega)

/-- Independent count of scope-introducing constructs in an expression:
a `Template` and a `Block` with the `scoping` flag set each count one,
everything else only sums over its children. -/
def scopes_expr : Expr → Nat
| .Lit => 0
| .Ident _ => 0
| .Array items => scopes_exprs items
| .Dict items => scopes_dict items
| .Template tree => 1 + scopes_tree tree
| .Group e => scopes_expr e
| .Block scoping exprs => (if scoping then 1 else 0) + scopes_exprs exprs
| .Unary e => scopes_expr e
| .Binary lhs rhs => scopes_expr lhs + scopes_expr rhs
| .Call callee args => scopes_expr callee + scopes_args args
| .Closure _ body => scopes_expr body
| .Let _ init => (match init with | some i => scopes_expr i | none => 0)
| .If condition if_body else_body =>
    scopes_expr condition + scopes_expr if_body +
    (match else_body with | some e => scopes_expr e | none => 0)
| .While condition body => scopes_expr condition + scopes_expr body
| .For _ iter body => scopes_expr iter + scopes_expr body
termination_by e => sizeOf e
decreasing_by all_goals (simp_wf; try omega)

/-- Sum of `scopes_expr` over a list of expressions. -/
def scopes_exprs : List Expr → Nat
| [] => 0
| e :: rest => scopes_expr e + scopes_exprs rest
termination_by l => sizeOf l
decreasing_by all_goals (simp_wf; try omega)

/-- Sum of `scopes_expr` over the value expressions of dictionary items. -/
def scopes_dict : List Named → Nat
| [] => 0
| .mk _ e :: rest => scopes_expr e + scopes_dict rest
termination_by l => sizeOf l
decreasing_by all_goals (simp_wf; try omega)

/-- Sum of `scopes_arg` over a list of call arguments. -/
def scopes_args : List ExprArg → Nat
| [] => 0
| arg :: rest => scopes_arg arg + scopes_args rest
termination_by l => sizeOf l
decreasing_by all_goals (simp_wf; try omega)

/-- Scope count of a call argument's expression. -/
def scopes_arg : ExprArg → Nat
| .Pos e => scopes_expr e
| .Named (.mk _ e) => scopes_expr e
termination_by a => sizeOf a
decreasing_by all_goals (simp_wf; try omega)

end

mutual

/-- Independent count of the tree entities (`Node`s and `Expr`s) of a
tree. -/
def size_tree : Tree → Nat
| [] => 0
| n :: rest => size_node n + size_tree rest
termination_by t => sizeOf t
decreasing_by all_goals (simp_wf; try omega)

/-- Independent count of the tree entities of a node: the node itself
plus its structural descendants. -/
def size_node : Node → Nat
| .Heading contents => 1 + size_tree contents
| .Expr e => 1 + size_expr e
| _ => 1
termination_by n => sizeOf n
decreasing_by all_goals (simp_wf; try omega)

/-- Independent count of the tree entities of an expression: the
expression itself plus its structural descendants. -/
def size_expr : Expr → Nat
| .Lit => 1
| .Ident _ => 1
| .Array items => 1 + size_exprs items
| .Dict items => 1 + size_dict items
| .Template tree => 1 + size_tree tree
| .Group e => 1 + size_expr e
| .Block _ exprs => 1 + size_exprs exprs
| .Unary e => 1 + size_expr e
| .Binary lhs rhs => 1 + size_expr lhs + size_expr rhs
| .Call callee args => 1 + size_expr callee + size_args args
| .Closure _ body => 1 + size_expr body
| .Let _ init => 1 + (match init with | some i => size_expr i | none => 0)
| .If condition if_body else_body =>
    1 + size_expr condition + size_expr if_body +
    (match else_body with | some e => size_expr e | none => 0)
| .While condition body => 1 + size_expr condition + size_expr body
| .For _ iter body => 1 + size_expr iter + size_expr body
termination_by e => sizeOf e
decreasing_by all_goals (simp_wf; try omega)

/-- Sum of `size_expr` over a list of expressions. -/
def size_exprs : List Expr → Nat
| [] => 0
| e :: rest => size_expr e + size_exprs rest
termination_by l => sizeOf l
decreasing_by all_goals (simp_wf; try omega)

/-- Sum of `size_expr` over the value expressions of dictionary items. -/
def size_dict : List Named → Nat
| [] => 0
| .mk _ e :: rest => size_expr e + size_dict rest
termination_by l => sizeOf l
decreasing_by all_goals (simp_wf; try omega)

/-- Sum of `size_arg` over a list of call arguments. -/
def size_args : List ExprArg → Nat
| [] => 0
| arg :: rest => size_arg arg + size_args rest
termination_by l => sizeOf l
decreasing_by all_goals (simp_wf; try omega)

/-- Entity count of a call argument's expression. -/
def size_arg : ExprArg → Nat
| .Pos e => size_expr e
| .Named (.mk _ e) => size_expr e
termination_by a => sizeOf a
decreasing_by all_goals (simp_wf; try omega)

end

mutual

/-- Independent list of the binding occurrences of a tree, in
declaration order. -/
def binds_tree : Tree → List Ident
| [] => []
| n :: rest => binds_node n ++ binds_tree rest
termination_by t => sizeOf t
decreasing_by all_goals (simp_wf; try omega)

/-- Independent list of the binding occurrences of a node. -/
def binds_node : Node → List Ident
| .Heading contents => binds_tree contents
| .Expr e => binds_expr e
| _ => []
termination_by n => sizeOf n
decreasing_by all_goals (simp_wf; try omega)

/-- Independent list of the binding occurrences of an expression:
closure parameters, `let` targets and for-pattern identifiers, in the
order the walk declares them; dictionary keys, named-argument names and
`Ident` uses contribute nothing. -/
def binds_expr : Expr → List Ident
| .Lit => []
| .Ident _ => []
| .Array items => binds_exprs items
| .Dict items => binds_dict items
| .Template tree => binds_tree tree
| .Group e => binds_expr e
| .Block _ exprs => binds_exprs exprs
| .Unary e => binds_expr e
| .Binary lhs rhs => binds_expr lhs ++ binds_expr rhs
| .Call callee args => binds_expr callee ++ binds_args args
| .Closure params body => params ++ binds_expr body
| .Let binding init =>
    binding :: (match init with | some i => binds_expr i | none => [])
| .If condition if_body else_body =>
    binds_expr condition ++ binds_expr if_body ++
    (match else_body with | some e => binds_expr e | none => [])
| .While condition body => binds_expr condition ++ binds_expr body
| .For pattern iter body =>
    (match pattern with
     | .Value value => [value]
     | .KeyValue key value => [key, value]) ++
    (binds_expr iter ++ binds_expr body)
termination_by e => sizeOf e
decreasing_by all_goals (simp_wf; try omega)

/-- Concatenation of `binds_expr` over a list of expressions. -/
def binds_exprs : List Expr → List Ident
| [] => []
| e :: rest => binds_expr e ++ binds_exprs rest
termination_by l => sizeOf l
decreasing_by all_goals (simp_wf; try omega)

/-- Concatenation of `binds_expr` over the value expressions of
dictionary items. -/
def binds_dict : List Named → List Ident
| [] => []
| .mk _ e :: rest => binds_expr e ++ binds_dict rest
termination_by l => sizeOf l
decreasing_by all_goals (simp_wf; try omega)

/-- Concatenation of `binds_arg` over a list of call arguments. -/
def binds_args : List ExprArg → List Ident
| [] => []
| arg :: rest => binds_arg arg ++ binds_args rest
termination_by l => sizeOf l
decreasing_by all_goals (simp_wf; try omega)

/-- Binding occurrences of a call argument's expression. -/
def binds_arg : ExprArg → List Ident
| .Pos e => binds_expr e
| .Named (.mk _ e) => binds_expr e
termination_by a => sizeOf a
decreasing_by all_goals (simp_wf; try omega)

end

/-! ## Trace observations -/

/-- Is this event a scope entry? -/
def isEnter : Event → Bool
| .enter => true
| _ => false

/-- Is this event a scope exit? -/
def isExit : Event → Bool
| .exit => true
| _ => false

/-- Is this event a structural visit (a `visit_node` or `visit_expr`
operation invocation)? -/
def isVisit : Event → Bool
| .node _ => true
| .expr _ => true
| _ => false

/-- Number of `visit_enter` calls in a trace. -/
def enters (L : List Event) : Nat := L.countP isEnter

/-- Number of `visit_exit` calls in a trace. -/
def exits (L : List Event) : Nat := L.countP isExit

/-- Is this event a `visit_expr` operation invocation reaching an
`Ident` (identifier use) node? -/
def isIdentVisit : Event → Bool
| .expr (.Ident _) => true
| _ => false

/-- Number of `visit_node` / `visit_expr` operation invocations in a
trace. -/
def visits (L : List Event) : Nat := L.countP isVisit

/-- The identifiers passed to `visit_binding`, in firing order. -/
def bindingsOf (L : List Event) : List Ident :=
L.filterMap (fun e => match e with | .binding i => some i | _ => none)

/-- Strict push/pop discipline: at every point of the trace, the number
of exits fired so far never exceeds the number of entries fired so
far. -/
def dyck (L : List Event) : Prop :=
∀ n, exits (L.take n) ≤ enters (L.take n)

/-- Firing `visit_binding` in sequence over a parameter list records
exactly that list. -/
theorem filterMap_binding (params : List Ident) :
    params.filterMap ((fun e => match e with
      | Event.binding i => some i
      | _ => none) ∘ Event.binding) = params := by
  induction params with
  | nil => rfl
  | cons p rest ih => simp [List.filterMap_cons, Function.comp, ih]

/-- The master count lemma: over every tree, the walk fires exactly
`scopes_tree` many `visit_enter` calls and exactly as many `visit_exit`
calls, invokes the `visit_node` / `visit_expr` operations exactly
`size_tree` many times, and passes to `visit_binding` exactly the
structurally collected binding occurrences, in order. -/
theorem counts_spec : ∀ t : Tree,
    enters (visit_tree t) = scopes_tree t ∧
    exits (visit_tree t) = scopes_tree t ∧
    visits (visit_tree t) = size_tree t ∧
    bindingsOf (visit_tree t) = binds_tree t := by
  apply visit_tree.induct
    (fun t => enters (visit_tree t) = scopes_tree t ∧
      exits (visit_tree t) = scopes_tree t ∧
      visits (visit_tree t) = size_tree t ∧
      bindingsOf (visit_tree t) = binds_tree t)
    (fun node => enters (op_node node) = scopes_node node ∧
      exits (op_node node) = scopes_node node ∧
      visits (op_node node) = size_node node ∧
      bindingsOf (op_node node) = binds_node node)
    (fun n => enters (visit_node n) = scopes_node n ∧
      exits (visit_node n) = scopes_node n ∧
      visits (visit_node n) + 1 = size_node n ∧
      bindingsOf (visit_node n) = binds_node n)
    (fun e => enters (op_expr e) = scopes_expr e ∧
      exits (op_expr e) = scopes_expr e ∧
      visits (op_expr e) = size_expr e ∧
      bindingsOf (op_expr e) = binds_expr e)
    (fun e => enters (visit_expr e) = scopes_expr e ∧
      exits (visit_expr e) = scopes_expr e ∧
      visits (visit_expr e) + 1 = size_expr e ∧
      bindingsOf (visit_expr e) = binds_expr e)
    (fun pattern iter body =>
      enters (visit_for pattern iter body) = scopes_expr iter + scopes_expr body ∧
      exits (visit_for pattern iter body) = scopes_expr iter + scopes_expr body ∧
      visits (visit_for pattern iter body) = size_expr iter + size_expr body ∧
      bindingsOf (visit_for pattern iter body) =
        (match pattern with
         | .Value value => [value]
         | .KeyValue key value => [key, value]) ++
        (binds_expr iter ++ binds_expr body))
    (fun condition body =>
      enters (visit_while condition body) = scopes_expr condition + scopes_expr body ∧
      exits (visit_while condition body) = scopes_expr condition + scopes_expr body ∧
      visits (visit_while condition body) = size_expr condition + size_expr body ∧
      bindingsOf (visit_while condition body) = binds_expr condition ++ binds_expr body)
    (fun condition if_body else_body =>
      enters (visit_if condition if_body else_body) =
        scopes_expr condition + scopes_expr if_body +
        (match else_body with | some e => scopes_expr e | none => 0) ∧
      exits (visit_if condition if_body else_body) =
        scopes_expr condition + scopes_expr if_body +
        (match else_body with | some e => scopes_expr e | none => 0) ∧
      visits (visit_if condition if_body else_body) =
        size_expr condition + size_expr if_body +
        (match else_body with | some e => size_expr e | none => 0) ∧
      bindingsOf (visit_if condition if_body else_body) =
        binds_expr condition ++ binds_expr if_body ++
        (match else_body with | some e => binds_expr e | none => []))
    (fun binding init =>
      enters (visit_let binding init) =
        (match init with | some i => scopes_expr i | none => 0) ∧
      exits (visit_let binding init) =
        (match init with | some i => scopes_expr i | none => 0) ∧
      visits (visit_let binding init) =
        (match init with | some i => size_expr i | none => 0) ∧
      bindingsOf (visit_let binding init) =
        binding :: (match init with | some i => binds_expr i | none => []))
    (fun params body =>
      enters (visit_closure params body) = scopes_expr body ∧
      exits (visit_closure params body) = scopes_expr body ∧
      visits (visit_closure params body) = size_expr body ∧
      bindingsOf (visit_closure params body) = params ++ binds_expr body)
    (fun callee args =>
      enters (visit_call callee args) = scopes_expr callee + scopes_args args ∧
      exits (visit_call callee args) = scopes_expr callee + scopes_args args ∧
      visits (visit_call callee args) = size_expr callee + size_args args ∧
      bindingsOf (visit_call callee args) = binds_expr callee ++ binds_args args)
    (fun l => enters (visit_args l) = scopes_args l ∧
      exits (visit_args l) = scopes_args l ∧
      visits (visit_args l) = size_args l ∧
      bindingsOf (visit_args l) = binds_args l)
    (fun a => enters (visit_arg a) = scopes_arg a ∧
      exits (visit_arg a) = scopes_arg a ∧
      visits (visit_arg a) = size_arg a ∧
      bindingsOf (visit_arg a) = binds_arg a)
    (fun lhs rhs =>
      enters (visit_binary lhs rhs) = scopes_expr lhs + scopes_expr rhs ∧
      exits (visit_binary lhs rhs) = scopes_expr lhs + scopes_expr rhs ∧
      visits (visit_binary lhs rhs) = size_expr lhs + size_expr rhs ∧
      bindingsOf (visit_binary lhs rhs) = binds_expr lhs ++ binds_expr rhs)
    (fun e => enters (visit_unary e) = scopes_expr e ∧
      exits (visit_unary e) = scopes_expr e ∧
      visits (visit_unary e) = size_expr e ∧
      bindingsOf (visit_unary e) = binds_expr e)
    (fun scoping exprs =>
      enters (visit_block scoping exprs) =
        (if scoping then 1 else 0) + scopes_exprs exprs ∧
      exits (visit_block scoping exprs) =
        (if scoping then 1 else 0) + scopes_exprs exprs ∧
      visits (visit_block scoping exprs) = size_exprs exprs ∧
      bindingsOf (visit_block scoping exprs) = binds_exprs exprs)
    (fun l => enters (visit_block_exprs l) = scopes_exprs l ∧
      exits (visit_block_exprs l) = scopes_exprs l ∧
      visits (visit_block_exprs l) = size_exprs l ∧
      bindingsOf (visit_block_exprs l) = binds_exprs l)
    (fun e => enters (visit_group e) = scopes_expr e ∧
      exits (visit_group e) = scopes_expr e ∧
      visits (visit_group e) = size_expr e ∧
      bindingsOf (visit_group e) = binds_expr e)
    (fun tree => enters (visit_template tree) = 1 + scopes_tree tree ∧
      exits (visit_template tree) = 1 + scopes_tree tree ∧
      visits (visit_template tree) = size_tree tree ∧
      bindingsOf (visit_template tree) = binds_tree tree)
    (fun l => enters (visit_dict l) = scopes_dict l ∧
      exits (visit_dict l) = scopes_dict l ∧
      visits (visit_dict l) = size_dict l ∧
      bindingsOf (visit_dict l) = binds_dict l)
    (fun l => enters (visit_array l) = scopes_exprs l ∧
      exits (visit_array l) = scopes_exprs l ∧
      visits (visit_array l) = size_exprs l ∧
      bindingsOf (visit_array l) = binds_exprs l)
  on_goal 41 => intro scoping exprs h; cases scoping
  on_goal 32 => intro binding init h; rcases init with _ | i
  on_goal 31 => intro condition if_body else_body h1 h2 h3; rcases else_body with _ | e
  on_goal 29 => intro pattern iter body h1 h2; rcases pattern with v | kv
  on_goal 28 => intro pattern iter body h; rcases pattern with v | kv
  on_goal 26 => intro condition if_body else_body h; rcases else_body with _ | e
  on_goal 25 => intro binding init h; rcases init with _ | i
  all_goals intros
  all_goals simp_all [visit_tree, op_node, visit_node, op_expr, visit_expr,
    visit_array, visit_dict, visit_template, visit_group, visit_block,
    visit_block_exprs, visit_binary, visit_unary, visit_call, visit_closure,
    visit_args, visit_arg, visit_let, visit_if, visit_while, visit_for,
    scopes_tree, scopes_node, scopes_expr, scopes_exprs, scopes_dict,
    scopes_args, scopes_arg, size_tree, size_node, size_expr, size_exprs,
    size_dict, size_args, size_arg, binds_tree, binds_node, binds_expr,
    binds_exprs, binds_dict, binds_args, binds_arg,
    enters, exits, visits, bindingsOf, isEnter, isExit, isVisit,
    List.countP_cons, List.countP_append, List.filterMap_cons,
    List.filterMap_append, filterMap_binding]
  all_goals omega

/-- Count lemma specialized to a single expression's walk. -/
theorem counts_expr_spec (e : Expr) :
    enters (visit_expr e) = scopes_expr e ∧
    exits (visit_expr e) = scopes_expr e ∧
    visits (visit_expr e) + 1 = size_expr e ∧
    bindingsOf (visit_expr e) = binds_expr e := by
  have h := counts_spec [Node.Expr e]
  simp [visit_tree, op_node, visit_node, op_expr, scopes_tree, scopes_node,
    size_tree, size_node, binds_tree, binds_node, enters, exits, visits,
    bindingsOf, isEnter, isExit, isVisit, List.countP_cons, List.countP_append,
    List.filterMap_cons, List.filterMap_append] at h
  obtain ⟨h1, h2, h3, h4⟩ := h
  refine ⟨?_, ?_, ?_, ?_⟩ <;>
    simp [enters, exits, visits, bindingsOf, isEnter, isExit, isVisit,
      List.countP_cons, List.countP_append, List.filterMap_cons,
      List.filterMap_append]
  · omega
  · omega
  · omega
  · exact h4

/-! ## The push/pop discipline of the scope hooks -/

/-- The empty trace satisfies the discipline. -/
theorem dyck_nil : dyck [] := by
  intro n
  simp [enters, exits]

/-- Concatenation preserves the discipline. -/
theorem dyck_append {L M : List Event} (hL : dyck L) (hM : dyck M) :
    dyck (L ++ M) := by
  intro n
  rw [List.take_append_eq_append_take]
  simp only [enters, exits, List.countP_append]
  exact Nat.add_le_add (hL n) (hM (n - L.length))

/-- Prepending a non-exit event preserves the discipline. -/
theorem dyck_cons {e : Event} {L : List Event} (he : isExit e = false)
    (h : dyck L) : dyck (e :: L) := by
  intro n
  cases n with
  | zero => simp [enters, exits]
  | succ m =>
    have := h m
    simp only [enters, exits, List.take_succ_cons, List.countP_cons, he] at *
    cases e <;> simp_all [isEnter, isExit] <;> omega

/-- Wrapping a disciplined trace in one `enter` … `exit` pair preserves
the discipline. -/
theorem dyck_wrap {L : List Event} (h : dyck L) :
    dyck (Event.enter :: (L ++ [Event.exit])) := by
  intro n
  cases n with
  | zero => simp [enters, exits]
  | succ m =>
    rw [List.take_succ_cons, List.take_append_eq_append_take]
    simp only [enters, exits, List.countP_cons, List.countP_append,
      isEnter, isExit]
    rcases Nat.eq_zero_or_pos (m - L.length) with h0 | hpos
    · have := h m
      simp only [enters, exits] at this
      simp [h0]
      omega
    · have hlen : L.length ≤ m := by omega
      have h1 : L.take m = L := List.take_of_length_le hlen
      have h2 : (([Event.exit] : List Event).take (m - L.length)) = [Event.exit] := by
        apply List.take_of_length_le
        simp
        omega
      have := h L.length
      rw [List.take_length] at this
      simp only [enters, exits] at this
      rw [h1, h2]
      simp [isEnter, isExit]
      omega

/-- The binding events of a parameter list satisfy the discipline. -/
theorem dyck_map_binding (params : List Ident) :
    dyck (params.map Event.binding) := by
  induction params with
  | nil => exact dyck_nil
  | cons p rest ih => exact dyck_cons rfl ih

/-- The master discipline lemma: the trace of every walk satisfies the
strict push/pop discipline of the scope hooks. -/
theorem dyck_spec : ∀ t : Tree, dyck (visit_tree t) := by
  apply visit_tree.induct
    (fun t => dyck (visit_tree t))
    (fun node => dyck (op_node node))
    (fun n => dyck (visit_node n))
    (fun e => dyck (op_expr e))
    (fun e => dyck (visit_expr e))
    (fun pattern iter body => dyck (visit_for pattern iter body))
    (fun condition body => dyck (visit_while condition body))
    (fun condition if_body else_body => dyck (visit_if condition if_body else_body))
    (fun binding init => dyck (visit_let binding init))
    (fun params body => dyck (visit_closure params body))
    (fun callee args => dyck (visit_call callee args))
    (fun l => dyck (visit_args l))
    (fun a => dyck (visit_arg a))
    (fun lhs rhs => dyck (visit_binary lhs rhs))
    (fun e => dyck (visit_unary e))
    (fun scoping exprs => dyck (visit_block scoping exprs))
    (fun l => dyck (visit_block_exprs l))
    (fun e => dyck (visit_group e))
    (fun tree => dyck (visit_template tree))
    (fun l => dyck (visit_dict l))
    (fun l => dyck (visit_array l))
  on_goal 41 => intro scoping exprs h; cases scoping
  on_goal 32 => intro binding init h; rcases init with _ | i
  on_goal 31 => intro condition if_body else_body h1 h2 h3; rcases else_body with _ | e
  on_goal 29 => intro pattern iter body h1 h2; rcases pattern with v | kv
  on_goal 28 => intro pattern iter body h; rcases pattern with v | kv
  on_goal 26 => intro condition if_body else_body h; rcases else_body with _ | e
  on_goal 25 => intro binding init h; rcases init with _ | i
  all_goals intros
  all_goals try simp_all only [visit_tree, op_node, visit_node, op_expr,
    visit_expr, visit_array, visit_dict, visit_template, visit_group,
    visit_block, visit_block_exprs, visit_binary, visit_unary, visit_call,
    visit_closure, visit_args, visit_arg, visit_let, visit_if, visit_while,
    visit_for, if_true, if_false, List.singleton_append,
    List.nil_append, List.append_nil, Bool.false_eq_true,
    ite_true, ite_false]
  all_goals repeat' (first
    | assumption
    | exact dyck_nil
    | exact dyck_map_binding _
    | rfl
    | apply dyck_wrap
    | apply dyck_append
    | apply dyck_cons)

/-! ## The walk as a stateful visitor instance

The source's visitor is a `&mut self` object; a recording visitor
instance carries its log and each hook appends to it.  The `run_*`
family below is the same walk in that state-passing style: `run_tree log
t` is the visitor's log after walking `t` starting from log state `log`.
It is related to the pure traces by `run_eq_append`, from which
determinism across visitor instances follows. -/

set_option maxHeartbeats 1000000 in
mutual

/-- Stateful `visit_tree`: walk every node, threading the log. -/
def run_tree : List Event → Tree → List Event
| log, [] => log
| log, node :: rest => run_tree (run_op_node log node) rest
termination_by _ t => 3 * sizeOf t
decreasing_by all_goals (simp_wf; try omega)

/-- Stateful recording `visit_node` operation: append the node event,
then run the default walker. -/
def run_op_node (log : List Event) (node : Node) : List Event :=
run_node (log ++ [Event.node node]) node
termination_by 3 * sizeOf node + 1
decreasing_by all_goals (simp_wf; try omega)

/-- Stateful `visit_node` walker. -/
def run_node : List Event → Node → List Event
| log, .Strong => log
| log, .Emph => log
| log, .Space => log
| log, .Linebreak => log
| log, .Parbreak => log
| log, .Text _ => log
| log, .Heading contents => run_tree log contents
| log, .Raw _ => log
| log, .Expr e => run_op_expr log e
termination_by _ n => 3 * sizeOf n
decreasing_by all_goals (simp_wf; try omega)

/-- Stateful recording `visit_expr` operation: append the expression
event, then run the default walker. -/
def run_op_expr (log : List Event) (e : Expr) : List Event :=
run_expr (log ++ [Event.expr e]) e
termination_by 3 * sizeOf e + 1
decreasing_by all_goals (simp_wf; try omega)

/-- Stateful `visit_expr` walker: dispatch on the variant. -/
def run_expr : List Event → Expr → List Event
| log, .Lit => log
| log, .Ident _ => log
| log, .Array items => run_array log items
| log, .Dict items => run_dict log items
| log, .Template tree => run_template log tree
| log, .Group e => run_group log e
| log, .Block scoping exprs => run_block log scoping exprs
| log, .Unary e => run_unary log e
| log, .Binary lhs rhs => run_binary log lhs rhs
| log, .Call callee args => run_call log callee args
| log, .Closure params body => run_closure log params body
| log, .Let binding init => run_let log binding init
| log, .If condition if_body else_body => run_if log condition if_body else_body
| log, .While condition body => run_while log condition body
| log, .For pattern iter body => run_for log pattern iter body
termination_by _ e => 3 * sizeOf e
decreasing_by all_goals (simp_wf; try omega)

/-- Stateful `visit_array` walker. -/
def run_array : List Event → List Expr → List Event
| log, [] => log
| log, e :: rest => run_array (run_op_expr log e) rest
termination_by _ l => 3 * sizeOf l + 2
decreasing_by all_goals (simp_wf; try omega)

/-- Stateful `visit_dict` walker. -/
def run_dict : List Event → List Named → List Event
| log, [] => log
| log, .mk _ e :: rest => run_dict (run_op_expr log e) rest
termination_by _ l => 3 * sizeOf l + 2
decreasing_by all_goals (simp_wf; try omega)

/-- Stateful `visit_template` walker: append `enter`, walk the tree,
append `exit`. -/
def run_template (log : List Event) (tree : Tree) : List Event :=
run_tree (log ++ [Event.enter]) tree ++ [Event.exit]
termination_by 3 * sizeOf tree + 2
decreasing_by all_goals (simp_wf; try omega)

/-- Stateful `visit_group` walker. -/
def run_group (log : List Event) (e : Expr) : List Event :=
run_op_expr log e
termination_by 3 * sizeOf e + 2
decreasing_by all_goals (simp_wf; try omega)

/-- Stateful `visit_block` walker. -/
def run_block (log : List Event) (scoping : Bool) (exprs : List Expr) :
    List Event :=
(fun log2 => if scoping then log2 ++ [Event.exit] else log2)
  (run_block_exprs (if scoping then log ++ [Event.enter] else log) exprs)
termination_by 3 * sizeOf exprs + 2
decreasing_by all_goals (simp_wf; try omega)

/-- Stateful loop of `visit_block`. -/
def run_block_exprs : List Event → List Expr → List Event
| log, [] => log
| log, e :: rest => run_block_exprs (run_op_expr log e) rest
termination_by _ l => 3 * sizeOf l
decreasing_by all_goals (simp_wf; try omega)

/-- Stateful `visit_binary` walker. -/
def run_binary (log : List Event) (lhs rhs : Expr) : List Event :=
run_op_expr (run_op_expr log lhs) rhs
termination_by 3 * (sizeOf lhs + sizeOf rhs) + 2
decreasing_by all_goals (simp_wf; try omega)

/-- Stateful `visit_unary` walker. -/
def run_unary (log : List Event) (e : Expr) : List Event :=
run_op_expr log e
termination_by 3 * sizeOf e + 2
decreasing_by all_goals (simp_wf; try omega)

/-- Stateful `visit_call` walker. -/
def run_call (log : List Event) (callee : Expr) (args : List ExprArg) :
    List Event :=
run_args (run_op_expr log callee) args
termination_by 3 * (sizeOf callee + sizeOf args) + 2
decreasing_by all_goals (simp_wf; try omega)

/-- Stateful `visit_closure` walker: append the binding events for the
parameters in order, then walk the body. -/
def run_closure (log : List Event) (params : List Ident) (body : Expr) :
    List Event :=
run_op_expr (log ++ params.map Event.binding) body
termination_by 3 * sizeOf body + 2
decreasing_by all_goals (simp_wf; try omega)

/-- Stateful `visit_args` walker. -/
def run_args : List Event → List ExprArg → List Event
| log, [] => log
| log, arg :: rest => run_args (run_arg log arg) rest
termination_by _ l => 3 * sizeOf l + 1
decreasing_by all_goals (simp_wf; try omega)

/-- Stateful `visit_arg` walker. -/
def run_arg : List Event → ExprArg → List Event
| log, .Pos e => run_op_expr log e
| log, .Named (.mk _ e) => run_op_expr log e
termination_by _ a => 3 * sizeOf a + 2
decreasing_by all_goals (simp_wf; try omega)

/-- Stateful `visit_let` walker. -/
def run_let (log : List Event) (binding : Ident) (init : Option Expr) :
    List Event :=
match init with
| some i => run_op_expr (log ++ [Event.binding binding]) i
| none => log ++ [Event.binding binding]
termination_by 3 * sizeOf init + 2
decreasing_by all_goals (simp_wf; try omega)

/-- Stateful `visit_if` walker. -/
def run_if (log : List Event) (condition if_body : Expr)
    (else_body : Option Expr) : List Event :=
match else_body with
| some body => run_op_expr (run_op_expr (run_op_expr log condition) if_body) body
| none => run_op_expr (run_op_expr log condition) if_body
termination_by 3 * (sizeOf condition + sizeOf if_body + sizeOf else_body) + 2
decreasing_by all_goals (simp_wf; try omega)

/-- Stateful `visit_while` walker. -/
def run_while (log : List Event) (condition body : Expr) : List Event :=
run_op_expr (run_op_expr log condition) body
termination_by 3 * (sizeOf condition + sizeOf body) + 2
decreasing_by all_goals (simp_wf; try omega)

/-- Stateful `visit_for` walker. -/
def run_for (log : List Event) (pattern : ForPattern) (iter body : Expr) :
    List Event :=
run_op_expr (run_op_expr
  (log ++ (match pattern with
           | .Value value => [Event.binding value]
           | .KeyValue key value => [Event.binding key, Event.binding value]))
  iter) body
termination_by 3 * (sizeOf iter + sizeOf body) + 2
decreasing_by all_goals (simp_wf; try omega)

end

/-- A visitor instance's walk appends to its log exactly the pure trace
of the tree, independently of the log contents it starts from. -/
theorem run_eq_append : ∀ (log : List Event) (t : Tree),
    run_tree log t = log ++ visit_tree t := by
  apply run_tree.induct
    (fun log t => run_tree log t = log ++ visit_tree t)
    (fun log node => run_op_node log node = log ++ op_node node)
    (fun log n => run_node log n = log ++ visit_node n)
    (fun log e => run_op_expr log e = log ++ op_expr e)
    (fun log e => run_expr log e = log ++ visit_expr e)
    (fun log pattern iter body =>
      run_for log pattern iter body = log ++ visit_for pattern iter body)
    (fun log condition body =>
      run_while log condition body = log ++ visit_while condition body)
    (fun log condition if_body else_body =>
      run_if log condition if_body else_body =
        log ++ visit_if condition if_body else_body)
    (fun log binding init =>
      run_let log binding init = log ++ visit_let binding init)
    (fun log params body =>
      run_closure log params body = log ++ visit_closure params body)
    (fun log callee args =>
      run_call log callee args = log ++ visit_call callee args)
    (fun log l => run_args log l = log ++ visit_args l)
    (fun log a => run_arg log a = log ++ visit_arg a)
    (fun log lhs rhs => run_binary log lhs rhs = log ++ visit_binary lhs rhs)
    (fun log e => run_unary log e = log ++ visit_unary e)
    (fun log scoping exprs =>
      run_block log scoping exprs = log ++ visit_block scoping exprs)
    (fun log l => run_block_exprs log l = log ++ visit_block_exprs l)
    (fun log e => run_group log e = log ++ visit_group e)
    (fun log tree => run_template log tree = log ++ visit_template tree)
    (fun log l => run_dict log l = log ++ visit_dict l)
    (fun log l => run_array log l = log ++ visit_array l)
  on_goal 43 => intro log scoping exprs h; cases scoping
  on_goal 32 => intro log binding init h; rcases init with _ | i
  on_goal 31 => intro log condition if_body else_body h1 h2 h3; rcases else_body with _ | e
  on_goal 29 => intro log pattern iter body h1 h2; rcases pattern with v | kv
  on_goal 28 => intro log pattern iter body h; rcases pattern with v | kv
  on_goal 26 => intro log condition if_body else_body h; rcases else_body with _ | e
  on_goal 25 => intro log binding init h; rcases init with _ | i
  all_goals intros
  all_goals simp_all [run_tree, run_op_node, run_node, run_op_expr, run_expr,
    run_array, run_dict, run_template, run_group, run_block, run_block_exprs,
    run_binary, run_unary, run_call, run_closure, run_args, run_arg, run_let,
    run_if, run_while, run_for, visit_tree, op_node, visit_node, op_expr,
    visit_expr, visit_array, visit_dict, visit_template, visit_group,
    visit_block, visit_block_exprs, visit_binary, visit_unary, visit_call,
    visit_closure, visit_args, visit_arg, visit_let, visit_if, visit_while,
    visit_for]

/-! ## Renaming of identifiers the walk never touches -/

/-- Replace the `ident` of a `Named` item (a dictionary key or a named
argument's name), keeping the value expression. -/
def rename_named (f : Ident → Ident) : Named → Named
| .mk ident expr => .mk (f ident) expr

/-- Replace the name of a named argument; positional arguments are
unchanged. -/
def rename_arg (f : Ident → Ident) : ExprArg → ExprArg
| .Pos e => .Pos e
| .Named n => .Named (rename_named f n)

/-- `visit_dict` ignores the keys: renaming them all leaves the trace
unchanged. -/
theorem visit_dict_rename (f : Ident → Ident) (items : List Named) :
    visit_dict (items.map (rename_named f)) = visit_dict items := by
  induction items with
  | nil => rfl
  | cons n rest ih =>
    rcases n with ⟨k, e⟩
    simp [visit_dict, rename_named, ih]

/-- `visit_arg` ignores a named argument's name. -/
theorem visit_arg_rename (f : Ident → Ident) (a : ExprArg) :
    visit_arg (rename_arg f a) = visit_arg a := by
  rcases a with e | ⟨k, e⟩ <;> simp [visit_arg, rename_arg, rename_named]

/-- `visit_args` ignores the named arguments' names. -/
theorem visit_args_rename (f : Ident → Ident) (args : List ExprArg) :
    visit_args (args.map (rename_arg f)) = visit_args args := by
  induction args with
  | nil => rfl
  | cons a rest ih => simp [visit_args, visit_arg_rename, ih]

/-! ## The claims -/

/-- C1: for every tree walked by the default walkers, the number of
`visit_enter` calls equals the number of `visit_exit` calls, and at
every intermediate point of the walk the running count of enters minus
exits is non-negative (`dyck`), reaching exactly 0 at the end. -/
theorem scope_balance (t : Tree) :
    dyck (visit_tree t) ∧
    enters (visit_tree t) = exits (visit_tree t) := by
  refine ⟨dyck_spec t, ?_⟩
  obtain ⟨h1, h2, -, -⟩ := counts_spec t
  omega

/-- C2: the default walkers fire `visit_enter` / `visit_exit`
unconditionally around a `Template`'s contents, around a `Block`'s
contents exactly when its `scoping` flag is true, and no other
construct fires the scope hooks: over any tree or expression the number
of enter (and exit) events equals the independent count of `Template`s
and scoping `Block`s. -/
theorem scope_hooks_exactly (tree : Tree) (exprs : List Expr)
    (t : Tree) (e : Expr) :
    visit_template tree = Event.enter :: (visit_tree tree ++ [Event.exit]) ∧
    visit_block true exprs =
      Event.enter :: (visit_block_exprs exprs ++ [Event.exit]) ∧
    visit_block false exprs = visit_block_exprs exprs ∧
    enters (visit_tree t) = scopes_tree t ∧
    exits (visit_tree t) = scopes_tree t ∧
    enters (visit_expr e) = scopes_expr e ∧
    exits (visit_expr e) = scopes_expr e := by
  obtain ⟨h1, h2, -, -⟩ := counts_spec t
  obtain ⟨h3, h4, -, -⟩ := counts_expr_spec e
  refine ⟨?_, ?_, ?_, h1, h2, h3, h4⟩
  · simp [visit_template]
  · simp [visit_block]
  · simp [visit_block]

/-- C3 (counterexample): walking `Block{scoping: true, exprs:
[Let{binding: "x", init: Some(Lit)}]}` does not produce exactly the
four-event sequence `enter, binding "x", visit_expr Lit, exit`: the
walk also fires the `visit_expr` operation on the `Let` expression
itself. -/
theorem block_let_claimed_sequence_false :
    visit_block true [Expr.Let "x" (some Expr.Lit)] ≠
      [Event.enter, Event.binding "x", Event.expr Expr.Lit, Event.exit] := by
  intro h
  have hlen := congrArg List.length h
  simp [visit_block, visit_block_exprs, op_expr, visit_expr, visit_let] at hlen

/-- C3 (amended): walking `Block{scoping: true, exprs: [Let{binding:
"x", init: Some(Lit)}]}` produces exactly `visit_enter()`,
`visit_expr(Let)`, `visit_binding("x")`, `visit_expr(Lit)`,
`visit_exit()`, in that order. -/
theorem block_let_walk_sequence :
    visit_block true [Expr.Let "x" (some Expr.Lit)] =
      [Event.enter, Event.expr (Expr.Let "x" (some Expr.Lit)),
       Event.binding "x", Event.expr Expr.Lit, Event.exit] := by
  simp [visit_block, visit_block_exprs, op_expr, visit_expr, visit_let]

/-- C4: for every `For` expression the default walker fires the pattern
bindings first (key strictly before value for a key/value pattern),
then visits the iterable, then the body; and with a non-scoping block
body, neither the `For` itself nor that block fires any
`visit_enter` / `visit_exit` (all scope events come from subterms; in
the concrete scenario there are none at all). -/
theorem for_walk_order (k v w : Ident) (pattern : ForPattern)
    (iter body : Expr) (exprs : List Expr) :
    visit_for (ForPattern.KeyValue k v) iter body =
      [Event.binding k, Event.binding v] ++ (op_expr iter ++ op_expr body) ∧
    visit_for (ForPattern.Value w) iter body =
      [Event.binding w] ++ (op_expr iter ++ op_expr body) ∧
    enters (visit_for pattern iter (Expr.Block false exprs)) =
      scopes_expr iter + scopes_exprs exprs ∧
    exits (visit_for pattern iter (Expr.Block false exprs)) =
      scopes_expr iter + scopes_exprs exprs ∧
    visit_for (ForPattern.KeyValue "k" "v") (Expr.Ident "xs")
        (Expr.Block false []) =
      [Event.binding "k", Event.binding "v", Event.expr (Expr.Ident "xs"),
       Event.expr (Expr.Block false [])] := by
  obtain ⟨h1, h2, -, -⟩ :=
    counts_expr_spec (Expr.For pattern iter (Expr.Block false exprs))
  simp [visit_expr, scopes_expr] at h1 h2
  refine ⟨?_, ?_, ?_, ?_, ?_⟩
  · simp [visit_for]
  · simp [visit_for]
  · omega
  · omega
  · simp [visit_for, op_expr, visit_expr, visit_block, visit_block_exprs]

/-- C5: for every `Let` expression the default walker fires
`visit_binding` on the bound identifier strictly before visiting the
initializer; when the initializer is absent, its visit is simply
omitted and no other hook fires in its place. -/
theorem let_walk_order (b : Ident) (i : Expr) :
    visit_let b (some i) = Event.binding b :: op_expr i ∧
    visit_let b none = [Event.binding b] := by
  constructor <;> simp [visit_let]

/-- C6: completeness of the walk — over every tree the number of
`visit_node` / `visit_expr` operation invocations equals the
independent structural count of the tree's nodes: nothing is skipped
and nothing is double-visited. -/
theorem walk_completeness (t : Tree) :
    visits (visit_tree t) = size_tree t := by
  obtain ⟨-, -, h, -⟩ := counts_spec t
  exact h

/-- C7: for every closure, every parameter's `visit_binding` fires
strictly before any `visit_expr` call reaches an `Ident` node: any
prefix of the walk that already contains an identifier-use visit
already contains the binding event of every parameter. -/
theorem closure_binding_before_ident (params : List Ident) (body : Expr)
    (p : Ident) (hp : p ∈ params) (n : Nat)
    (hn : ((visit_closure params body).take n).any isIdentVisit = true) :
    Event.binding p ∈ (visit_closure params body).take n := by
  have hshape : visit_closure params body =
      params.map Event.binding ++ op_expr body := by
    simp [visit_closure]
  rw [hshape] at hn ⊢
  rw [List.take_append_eq_append_take] at hn ⊢
  rcases Nat.lt_or_ge n (params.map Event.binding).length with hlt | hge
  · exfalso
    have h0 : n - (params.map Event.binding).length = 0 := by omega
    rw [h0] at hn
    simp only [List.take_zero, List.append_nil, List.any_eq_true] at hn
    obtain ⟨x, hxmem, hx⟩ := hn
    obtain ⟨y, -, rfl⟩ := List.mem_map.mp (List.mem_of_mem_take hxmem)
    simp [isIdentVisit] at hx
  · have : (params.map Event.binding).take n = params.map Event.binding :=
      List.take_of_length_le (by omega)
    rw [this]
    exact List.mem_append_left _ (List.mem_map_of_mem Event.binding hp)

/-- C7 witness: for the closure `Closure{params: ["p"], body:
Ident("p")}` the two-event prefix contains an identifier visit, and the
theorem places `visit_binding("p")` inside it. -/
theorem closure_binding_before_ident_witness :
    Event.binding "p" ∈
      (visit_closure ["p"] (Expr.Ident "p")).take 2 :=
  closure_binding_before_ident ["p"] (Expr.Ident "p") "p" (by simp) 2
    (by simp [visit_closure, op_expr, visit_expr, isIdentVisit])

/-- C8: for every `If` expression the default walker visits the
condition first, then the if-body, then the else-body exactly when it
is present; an absent else-body produces no visit and no special
hook. -/
theorem if_walk_order (condition if_body else_e : Expr) :
    visit_if condition if_body (some else_e) =
      op_expr condition ++ op_expr if_body ++ op_expr else_e ∧
    visit_if condition if_body none =
      op_expr condition ++ op_expr if_body := by
  constructor <;> simp [visit_if]

/-- C9: the default walk is deterministic — a visitor instance walking
`t` appends to its log a sequence of events that does not depend on the
instance's prior state, so two runs over the same tree (in particular
two fresh instances) record identical sequences. -/
theorem walk_deterministic (t : Tree) (log1 log2 : List Event) :
    (run_tree log1 t).drop log1.length =
      (run_tree log2 t).drop log2.length := by
  simp [run_eq_append]

/-- C10: the walk passes to `visit_binding` exactly the closure
parameters, `Let` targets and for-pattern identifiers (in order), and
nothing else — in particular no dict key, no named-argument name and no
`Ident` use; moreover dict keys and named-argument names are never
passed to any operation at all: renaming them all does not change the
trace. -/
theorem binding_hook_exact (e : Expr) (f : Ident → Ident)
    (items : List Named) (args : List ExprArg) :
    bindingsOf (visit_expr e) = binds_expr e ∧
    visit_dict (items.map (rename_named f)) = visit_dict items ∧
    visit_args (args.map (rename_arg f)) = visit_args args := by
  obtain ⟨-, -, -, h⟩ := counts_expr_spec e
  exact ⟨h, visit_dict_rename f items, visit_args_rename f args⟩

end Visit
